import Mathlib

/-
Verification of the free-storage chunked blob store (src/lib.rs).

Shallow embedding conventions:
  * Byte sequences are `List Nat` (each entry a byte value).
  * Rust `String` values are `List Nat` of Unicode code points; their UTF-8
    byte serialization is `utf8Bytes`.
  * The network is an explicit environment: every remote response the code
    awaits is a field of an `Env` structure, and every request the code
    issues is recorded in a `List Request` trace returned next to the result.
  * Fallible code returns `Except`; `.unwrap()` panics and the
    `MaybeUninit::assume_init` read are distinguished abnormal outcomes.
  * The SHA-256 digest is an external collaborator and is passed in as an
    opaque function `digest : List Nat → String`.
-/

namespace FreeStorage

/-- UTF-8 encoding of a single Unicode code point (the serialization Rust
uses for `String` bytes and for `char` lengths). -/
def utf8EncodeChar (c : Nat) : List Nat :=
  if c < 128 then [c]
  else if c < 2048 then [192 + c / 64, 128 + c % 64]
  else if c < 65536 then [224 + c / 4096, 128 + c / 64 % 64, 128 + c % 64]
  else [240 + c / 262144, 128 + c / 4096 % 64, 128 + c / 64 % 64, 128 + c % 64]

/-- UTF-8 bytes of a Rust string given as a list of code points. -/
def utf8Bytes (s : List Nat) : List Nat :=
  s.flatMap utf8EncodeChar

/-- Left-to-right split of a character list at every occurrence of `c`,
mirroring Rust `str::split(c)` (an empty input yields one empty piece). -/
def splitChar (c : Char) : List Char → List (List Char)
  | [] => [[]]
  | x :: xs =>
    if x = c then [] :: splitChar c xs
    else
      match splitChar c xs with
      | [] => [[x]]
      | g :: gs => (x :: g) :: gs

/-- Whether the first list starts with the second, mirroring Rust
`starts_with` on the underlying sequences. -/
def listSW [DecidableEq α] : List α → List α → Bool
  | _, [] => true
  | [], _ :: _ => false
  | x :: xs, y :: ys => x == y && listSW xs ys

/-- Whether `l` contains `pat` as a contiguous subsequence, mirroring Rust
`str::contains` for ASCII patterns. -/
def listContainsSeq [DecidableEq α] (l pat : List α) : Bool :=
  match l with
  | [] => pat.isEmpty
  | _ :: xs => listSW l pat || listContainsSeq xs pat

/-- Removal of a suffix, mirroring Rust `str::strip_suffix`: `some` of the
remainder when `suf` is a suffix of `l`, otherwise `none`. -/
def dropSuffixList [DecidableEq α] (l suf : List α) : Option (List α) :=
  if listSW l.reverse suf.reverse then some (l.reverse.drop suf.length).reverse else none

/-- Split a character list at the first occurrence of `c`: the part before
it and, when present, the part after it. -/
def breakAt (c : Char) : List Char → List Char × Option (List Char)
  | [] => ([], none)
  | x :: xs =>
    if x = c then ([], some xs)
    else
      match breakAt c xs with
      | (a, b) => (x :: a, b)

/-- Model of `url::Url`: serialized scheme plus authority, serialized path,
and the query part (`none` when no `?` is present, `some ""` for a bare `?`,
exactly as the url crate distinguishes them). Fragments, credentials and
port handling are outside the modelled subset. -/
structure Url where
  base : String
  path : String
  query : Option String
deriving DecidableEq

/-- Textual serialization of a `Url`, mirroring the url crate's `Display`:
a present-but-empty query still serializes as a trailing `?`. -/
def Url.toString (u : Url) : String :=
  u.base ++ u.path ++ (match u.query with | none => "" | some q => "?" ++ q)

/-- Percent-encoding of the path percent-encode set restricted to the brace
characters, which is what the url crate applies to `\x7b` and `\x7d` in a
parsed path. -/
def encodeBraces : List Char → List Char
  | [] => []
  | c :: cs =>
    (if c = Char.ofNat 123 then "%7B".data
     else if c = Char.ofNat 125 then "%7D".data
     else [c]) ++ encodeBraces cs

/-- Model of `url::Url::parse` on absolute URLs of shape
`scheme://authority[/path][?query]`: the path is cut at the first `?`, brace
characters in the path are percent-encoded, and the query is kept verbatim.
Inputs outside this shape are parse failures. -/
def Url.parseStr (s : String) : Option Url :=
  match breakAt ':' s.data with
  | (scheme, some ('/' :: '/' :: rest)) =>
    if scheme.isEmpty then none
    else
      match rest.span (fun c => !(c == '/' || c == '?')) with
      | (auth, tail) =>
        if auth.isEmpty then none
        else
          let base := String.mk (scheme ++ ':' :: '/' :: '/' :: auth)
          match tail with
          | [] => some ⟨base, "/", none⟩
          | '?' :: q => some ⟨base, "/", some (String.mk q)⟩
          | t =>
            match t.span (fun c => !(c == '?')) with
            | (p, t2) =>
              let path := String.mk (encodeBraces p)
              match t2 with
              | [] => some ⟨base, path, none⟩
              | _ :: q => some ⟨base, path, some (String.mk q)⟩
  | _ => none

/-- Error enum of the library (src/lib.rs lines 6-14); payloads of the
wrapped foreign errors are abstracted to numeric tags. -/
inductive Error
  | reqwest (tag : Nat)
  | serde (tag : Nat)
  | ioError (tag : Nat)
  | tokioJoin (tag : Nat)
  | urlParse (tag : Nat)
  | invalidRepoFormat
deriving DecidableEq

/-- Errors a remote interaction can produce (the images of the `From`
conversions used by `?`): everything except `InvalidRepoFormat`, which only
the repo-format guard constructs. -/
inductive NetError
  | reqwest (tag : Nat)
  | serde (tag : Nat)
  | ioError (tag : Nat)
  | tokioJoin (tag : Nat)
  | urlParse (tag : Nat)
deriving DecidableEq

/-- Embedding of a network-layer error into the library's error enum,
mirroring the `From` impls. -/
def NetError.toError : NetError → Error
  | .reqwest t => .reqwest t
  | .serde t => .serde t
  | .ioError t => .ioError t
  | .tokioJoin t => .tokioJoin t
  | .urlParse t => .urlParse t

/-- Outcome of running an operation: a library error, a panic (an
`unwrap` failure), or the distinguished read of the chunk-0 result slot
when it was not written exactly once. -/
inductive RunErr
  | err (e : Error)
  | panicked
  | uninit
deriving DecidableEq

/-- One remote request issued by the code, in issue order. -/
inductive Request
  | getRelease (repo tag : String)
  | createRelease (repo tag : String)
  | putContents (repo path : String)
  | listAssets (url : Url)
  | chunkUpload (url : Url) (body : List Nat)
  | chunkGet (url : String)
deriving DecidableEq

/-- Whether a request is a chunk upload POST. -/
def Request.isChunkUpload : Request → Bool
  | .chunkUpload _ _ => true
  | _ => false

/-- Shape of one entry of the release's asset listing (src/lib.rs lines
65-69). -/
structure AssetsResponse where
  name : String
  browser_download_url : String
deriving DecidableEq

/-- Shape of a release lookup/creation response (src/lib.rs lines 192-196).
-/
structure ReleaseResponse where
  upload_url : Option String
  assets_url : Option String
deriving DecidableEq

instance [DecidableEq ε] [DecidableEq α] : DecidableEq (Except ε α) := fun x y =>
  match x, y with
  | .ok a, .ok b =>
    if h : a = b then .isTrue (by rw [h]) else .isFalse (by intro hc; cases hc; exact h rfl)
  | .error a, .error b =>
    if h : a = b then .isTrue (by rw [h]) else .isFalse (by intro hc; cases hc; exact h rfl)
  | .ok _, .error _ => .isFalse (by intro hc; cases hc)
  | .error _, .ok _ => .isFalse (by intro hc; cases hc)

/-- Responses the remote side gives to the release resolver, one field per
awaited interaction of `create_or_get_release`. -/
structure ResolverEnv where
  getRelease1 : Except NetError ReleaseResponse
  createRelease : Except NetError ReleaseResponse
  putContents : Except NetError String
  getRelease2 : Except NetError ReleaseResponse

/-- Result of one run of the `get_release`/`create_release` closures of
src/lib.rs lines 201-243. -/
inductive RelRes
  | urls (u : Url × Url)
  | incomplete
  | failed (e : NetError)
  | parseFail
deriving DecidableEq

/-- Model of `parse_url` (src/lib.rs lines 294-303): parse the URL, set
the query to the empty string, and strip one trailing percent-encoded
opening brace from the path (re-serializing through `set_path`). -/
def parse_url (s : String) : Except Error Url :=
  match Url.parseStr s with
  | none => .error (.urlParse 0)
  | some u =>
    let u1 : Url := { u with query := some "" }
    match dropSuffixList u1.path.data "%7B".data with
    | some p => .ok { u1 with path := String.mk (encodeBraces p) }
    | none => .ok u1

/-- One run of the closures of src/lib.rs lines 201-243: a transport or
decode failure propagates, a response missing either URL yields
`Ok(None)` (here `incomplete`), and a present-but-unparseable URL hits the
`parse_url(..).unwrap()` panic (here `parseFail`). -/
def getReleaseStep (resp : Except NetError ReleaseResponse) : RelRes :=
  match resp with
  | .error e => .failed e
  | .ok r =>
    match r.assets_url, r.upload_url with
    | some a, some u =>
      match parse_url a, parse_url u with
      | .ok pa, .ok pu => .urls (pa, pu)
      | _, _ => .parseFail
    | _, _ => .incomplete

/-- Whether a phase outcome is one the resolver swallows as a soft failure
(a failed or incomplete lookup, as opposed to a success or a panic). -/
def RelRes.isSoftFail : RelRes → Bool
  | .urls _ => false
  | .parseFail => false
  | _ => true

/-- Model of `create_or_get_release` (src/lib.rs lines 200-266): lookup,
then creation, then a bootstrap content commit against the sentinel path
followed by one final lookup whose `Ok` payload is `.unwrap()`ed. Returns
the (assets URL, upload URL) pair and the trace of requests issued. -/
def create_or_get_release (repo tag : String) (env : ResolverEnv) :
    Except RunErr (Url × Url) × List Request :=
  match getReleaseStep env.getRelease1 with
  | .urls u => (.ok u, [.getRelease repo tag])
  | .parseFail => (.error .panicked, [.getRelease repo tag])
  | _ =>
    match getReleaseStep env.createRelease with
    | .urls u => (.ok u, [.getRelease repo tag, .createRelease repo tag])
    | .parseFail => (.error .panicked, [.getRelease repo tag, .createRelease repo tag])
    | _ =>
      match env.putContents with
      | .error e =>
        (.error (.err e.toError),
         [.getRelease repo tag, .createRelease repo tag,
          .putContents repo "__no_empty_repo__"])
      | .ok _ =>
        match getReleaseStep env.getRelease2 with
        | .urls u =>
          (.ok u,
           [.getRelease repo tag, .createRelease repo tag,
            .putContents repo "__no_empty_repo__", .getRelease repo tag])
        | .parseFail =>
          (.error .panicked,
           [.getRelease repo tag, .createRelease repo tag,
            .putContents repo "__no_empty_repo__", .getRelease repo tag])
        | .incomplete =>
          (.error .panicked,
           [.getRelease repo tag, .createRelease repo tag,
            .putContents repo "__no_empty_repo__", .getRelease repo tag])
        | .failed e =>
          (.error (.err e.toError),
           [.getRelease repo tag, .createRelease repo tag,
            .putContents repo "__no_empty_repo__", .getRelease repo tag])

/-- Overwrite the cells of `buf` starting at offset `off` with `src`,
leaving the rest unchanged: the effect of one `std::ptr::copy` of
`src.length` elements into a buffer (`ptr::copy` has memmove semantics, so
the source is read as a snapshot). -/
def writeRange (buf : List α) (off : Nat) (src : List α) : List α :=
  buf.take off ++ src ++ buf.drop (off + src.length)

/-- Model of the unsafe `prepend_slice` (src/lib.rs lines 268-276). The
allocation behind the vector is `vec ++ spare`, where `spare` is the spare
capacity guaranteed by `reserve` (its contents are arbitrary). The first
`ptr::copy` moves the old contents up by `slice.length`, the second writes
`slice` at the front, and `set_len` exposes the first
`vec.length + slice.length` cells. -/
def prepend_slice (vec slice spare : List α) : List α :=
  let len := vec.length
  let amt := slice.length
  let buf := vec ++ spare
  let buf1 := writeRange buf amt (buf.take len)
  let buf2 := writeRange buf1 0 slice
  buf2.take (len + amt)

/-- Fuel-driven splitting of a list into chunks of `n` elements (the final
chunk may be shorter), mirroring Rust `slice::chunks(n)` whenever
`l.length ≤ fuel`. -/
def rustChunksFuel (n : Nat) : Nat → List α → List (List α)
  | _, [] => []
  | 0, _ => []
  | fuel + 1, x :: xs => (x :: xs.take (n - 1)) :: rustChunksFuel n fuel (xs.drop (n - 1))

/-- Splitting of a list into chunks of `n` elements, mirroring Rust
`slice::chunks(n)` (the final chunk may be shorter; an empty slice has no
chunks). -/
def rustChunks (n : Nat) (l : List α) : List (List α) :=
  rustChunksFuel n l.length l

/-- Serializable locator of an uploaded file (src/lib.rs lines 58-63). -/
structure FileId where
  asset_url : Url
  chunks : Nat
deriving DecidableEq

/-- Repository-format guard of `upload_file` (src/lib.rs line 83): the
identifier must split at `/` into exactly two pieces, or contain
`github.com`. -/
def valid_repo (repo : String) : Bool :=
  ((splitChar '/' repo.data).length == 2) || listContainsSeq repo.data "github.com".data

/-- Wire header prepended to the payload: the UTF-8 bytes of the file name
followed by a newline, i.e. `format!("\x7bfile_name\x7d\n").as_bytes()`. -/
def nameHeader (file_name : List Nat) : List Nat :=
  utf8Bytes file_name ++ [10]

/-- Name-prefixed payload of `upload_file` (src/lib.rs lines 95-97): the
result of `prepend_slice(&mut file_data, header)` after `reserve` made the
spare capacity at least the header's length (the spare cells' contents are
irrelevant; zeros stand in for them). -/
def uploadPayload (file_name file_data : List Nat) : List Nat :=
  prepend_slice file_data (nameHeader file_name) (List.replicate (nameHeader file_name).length 0)

/-- Chunk list of the name-prefixed payload, `file_data.chunks(100_000_000)`
of src/lib.rs line 103. -/
def uploadChunks (file_name file_data : List Nat) : List (List Nat) :=
  rustChunks 100000000 (uploadPayload file_name file_data)

/-- Responses the remote side gives to `upload_file`: the resolver's
environment, the asset-listing response, the outcome of awaiting each
spawned chunk POST, and the JSON body the chunk-0 response parses to. -/
structure UploadEnv where
  resolver : ResolverEnv
  listAssets : Except NetError (List AssetsResponse)
  chunkSend : Nat → Except NetError Unit
  chunkZeroJson : Except NetError AssetsResponse

/-- Join loop of `upload_file` (src/lib.rs lines 141-148): await each
spawned chunk upload in spawn order; the chunk-0 response body is parsed
and its download URL written into the result slot. `hist` is the slot's
write history. -/
def joinLoop (env : UploadEnv) : List Nat → List Url → Except Error (List Url)
  | [], hist => .ok hist
  | i :: rest, hist =>
    match env.chunkSend i with
    | .error e => .error e.toError
    | .ok _ =>
      if i = 0 then
        match env.chunkZeroJson with
        | .error e => .error e.toError
        | .ok json =>
          match parse_url json.browser_download_url with
          | .error e => .error e
          | .ok u => joinLoop env rest (hist ++ [u])
      else joinLoop env rest hist

/-- Chunk upload requests spawned by src/lib.rs lines 124-139: one POST per
chunk, the target URL's query set to the hash-and-index asset name, the
chunk bytes as the body. -/
def chunkUploadRequests (uploads_url : Url) (hash : String) (chunksList : List (List Nat)) :
    List Request :=
  chunksList.enum.map (fun p =>
    Request.chunkUpload { uploads_url with query := some ("name=" ++ hash ++ "-chunk" ++ ToString.toString p.1) } p.2)

/-- Barrier and result construction of `upload_file` (src/lib.rs lines
141-153): run the join loop over chunk indices `0..chunks_len` and read the
result slot; a slot not written exactly once is the distinguished `uninit`
outcome. -/
def uploadSpawnJoin (env : UploadEnv) (chunks_len : Nat) (tr : List Request) :
    Except RunErr FileId × List Request :=
  match joinLoop env (List.range chunks_len) [] with
  | .error e => (.error (.err e), tr)
  | .ok [u] => (.ok ⟨u, chunks_len⟩, tr)
  | .ok _ => (.error .uninit, tr)

/-- Body of `upload_file` after the release is resolved (src/lib.rs lines
95-153): prefix the name, hash, chunk, list the release's assets, return
early on a matching `-chunk0` asset (dedup), otherwise spawn all chunk
uploads and join. `uploads_url`/`assets_url` are bound exactly as the
destructuring of line 92 binds the resolver's pair. -/
def uploadWithRelease (digest : List Nat → String) (file_name file_data : List Nat)
    (env : UploadEnv) (uploads_url assets_url : Url) (tr0 : List Request) :
    Except RunErr FileId × List Request :=
  let hash := digest (uploadPayload file_name file_data)
  let chunksList := uploadChunks file_name file_data
  let chunks_len := chunksList.length
  let tr1 := tr0 ++ [Request.listAssets assets_url]
  match env.listAssets with
  | .error e => (.error (.err e.toError), tr1)
  | .ok assets =>
    match assets.find? (fun a => a.name == hash ++ "-chunk0") with
    | some asset =>
      match parse_url asset.browser_download_url with
      | .error e => (.error (.err e), tr1)
      | .ok u => (.ok ⟨u, chunks_len⟩, tr1)
    | none =>
      uploadSpawnJoin env chunks_len (tr1 ++ chunkUploadRequests uploads_url hash chunksList)

/-- Model of `FileId::upload_file` (src/lib.rs lines 76-154): validate the
repository identifier, resolve the release under the fixed tag `files`,
then upload (or dedup) the name-prefixed payload. Returns the result and
the trace of requests issued. -/
def FileId.upload_file (digest : List Nat → String) (file_name file_data : List Nat)
    (repo : String) (env : UploadEnv) : Except RunErr FileId × List Request :=
  if valid_repo repo = false then (.error (.err .invalidRepoFormat), [])
  else
    match create_or_get_release repo "files" env.resolver with
    | (.error e, tr) => (.error e, tr)
    | (.ok urls, tr) => uploadWithRelease digest file_name file_data env urls.1 urls.2 tr

/-- Responses the remote side gives to `get_file`: the body each chunk
fetch resolves to, by chunk index. -/
structure DownloadEnv where
  fetch : Nat → Except NetError (List Nat)

/-- Await-and-extend loop of `get_file` (src/lib.rs lines 172-176): the
spawned fetches are awaited in spawn order, i.e. ascending chunk index, and
their bodies appended to the accumulator. -/
def downloadLoop (env : DownloadEnv) : List Nat → List Nat → Except Error (List Nat)
  | [], acc => .ok acc
  | i :: rest, acc =>
    match env.fetch i with
    | .error e => .error e.toError
    | .ok chunk => downloadLoop env rest (acc ++ chunk)

/-- Name recovery of `get_file` (src/lib.rs lines 178-188): the file name
is every byte-as-char before the first newline; the content is the payload
after skipping `file_name.len() + 1` bytes, where `len()` is the UTF-8 byte
length of the recovered name string. Returns `(content, name)`. -/
def splitNamePayload (file : List Nat) : List Nat × List Nat :=
  let file_name := file.takeWhile (fun b => b != 10)
  (file.drop ((file_name.map (fun b => (utf8EncodeChar b).length)).sum + 1), file_name)

/-- Model of `FileId::get_file` (src/lib.rs lines 159-189): fetch the chunks
`0..self.chunks` from the asset URL with the `-chunk<i>` suffix appended to
its serialization, concatenate the bodies in index order, and split off the
embedded file name. -/
def FileId.get_file (fid : FileId) (env : DownloadEnv) :
    Except RunErr (List Nat × List Nat) × List Request :=
  let tr := (List.range fid.chunks).map (fun i =>
    Request.chunkGet (fid.asset_url.toString ++ "-chunk" ++ ToString.toString i))
  match downloadLoop env (List.range fid.chunks) [] with
  | .error e => (.error (.err e), tr)
  | .ok file => (.ok (splitNamePayload file), tr)

/-! Helper lemmas about the embedded definitions. -/

theorem flatMap_map_eq (l : List α) (g : α → β) (f : β → List γ) :
    (l.map g).flatMap f = l.flatMap (fun a => f (g a)) := by
  induction l with
  | nil => simp
  | cons a l ih => simp [ih]

theorem range_flatMap_getD (l : List (List Nat)) :
    (List.range l.length).flatMap (fun i => l.getD i []) = l.flatten := by
  induction l with
  | nil => simp
  | cons a l ih =>
    rw [List.length_cons, List.range_succ_eq_map]
    simp only [List.flatMap_cons, List.getD_cons_zero, flatMap_map_eq, List.getD_cons_succ]
    rw [ih, List.flatten_cons]

theorem takeWhile_name_part (N B : List Nat) (hN : ∀ c ∈ N, c ≠ 10) :
    (N ++ 10 :: B).takeWhile (fun b => b != 10) = N := by
  induction N with
  | nil => simp [List.takeWhile_cons]
  | cons c N ih =>
    have hc : c ≠ 10 := hN c (List.mem_cons_self c N)
    simp only [List.cons_append, List.takeWhile_cons]
    have : (c != 10) = true := by simpa using hc
    rw [this]
    simp only [if_true]
    rw [ih (fun d hd => hN d (List.mem_cons_of_mem c hd))]

theorem drop_name_part (N B : List Nat) :
    (N ++ 10 :: B).drop (N.length + 1) = B := by
  have h : N ++ 10 :: B = (N ++ [10]) ++ B := by simp
  have hl : (N ++ [10]).length = N.length + 1 := by simp
  rw [h, ← hl, List.drop_left]

theorem utf8EncodeChar_ascii (c : Nat) (h : c < 128) : utf8EncodeChar c = [c] := by
  simp [utf8EncodeChar, h]

theorem utf8Bytes_ascii (N : List Nat) (h : ∀ c ∈ N, c < 128) : utf8Bytes N = N := by
  induction N with
  | nil => simp [utf8Bytes]
  | cons c N ih =>
    have hc := h c (List.mem_cons_self c N)
    simp only [utf8Bytes, List.flatMap_cons] at *
    rw [utf8EncodeChar_ascii c hc, ih (fun d hd => h d (List.mem_cons_of_mem c hd))]
    rfl

theorem utf8EncodeChar_length_pos (c : Nat) : 1 ≤ (utf8EncodeChar c).length := by
  unfold utf8EncodeChar
  split
  · simp
  · split
    · simp
    · split <;> simp

theorem prepend_slice_spec (vec slice spare : List α) (h : slice.length ≤ spare.length) :
    prepend_slice vec slice spare = slice ++ vec := by
  unfold prepend_slice writeRange
  simp only [List.take_zero, List.nil_append, Nat.zero_add]
  have h1 : (vec ++ spare).take vec.length = vec := List.take_left vec spare
  rw [h1]
  have hlen : ((vec ++ spare).take slice.length).length = slice.length := by
    rw [List.length_take, List.length_append]
    omega
  rw [List.append_assoc, List.drop_left' hlen, Nat.add_comm vec.length slice.length,
    List.take_append, List.take_left]

theorem uploadPayload_eq (N B : List Nat) :
    uploadPayload N B = utf8Bytes N ++ 10 :: B := by
  unfold uploadPayload
  rw [prepend_slice_spec _ _ _ (by simp)]
  simp [nameHeader]

theorem uploadPayload_length (N B : List Nat) :
    (uploadPayload N B).length = (utf8Bytes N).length + 1 + B.length := by
  rw [uploadPayload_eq]
  simp
  omega

theorem uploadPayload_ne_nil (N B : List Nat) : uploadPayload N B ≠ [] := by
  rw [uploadPayload_eq]
  intro h
  have := congrArg List.length h
  simp at this

theorem rustChunksFuel_flatten (n : Nat) (f : Nat) (l : List α) (h : l.length ≤ f) :
    (rustChunksFuel n f l).flatten = l := by
  induction f generalizing l with
  | zero =>
    cases l with
    | nil => simp [rustChunksFuel]
    | cons x xs => simp at h
  | succ f ih =>
    cases l with
    | nil => simp [rustChunksFuel]
    | cons x xs =>
      simp only [rustChunksFuel, List.flatten_cons]
      rw [ih (xs.drop (n - 1)) (by simp only [List.length_drop]; simp only [List.length_cons] at h; omega)]
      simp [List.take_append_drop]

theorem rustChunks_flatten (n : Nat) (l : List α) : (rustChunks n l).flatten = l :=
  rustChunksFuel_flatten n l.length l (Nat.le_refl _)

theorem rustChunksFuel_length (n : Nat) (hn : 1 ≤ n) (f : Nat) (l : List α)
    (h : l.length ≤ f) :
    (rustChunksFuel n f l).length = (l.length + (n - 1)) / n := by
  induction f generalizing l with
  | zero =>
    cases l with
    | nil =>
      simp only [rustChunksFuel, List.length_nil, Nat.zero_add]
      exact (Nat.div_eq_of_lt (by omega)).symm
    | cons x xs => simp at h
  | succ f ih =>
    cases l with
    | nil =>
      simp only [rustChunksFuel, List.length_nil, Nat.zero_add]
      exact (Nat.div_eq_of_lt (by omega)).symm
    | cons x xs =>
      simp only [rustChunksFuel, List.length_cons]
      rw [ih (xs.drop (n - 1)) (by simp only [List.length_drop]; simp only [List.length_cons] at h; omega)]
      rw [List.length_drop]
      have hm : xs.length + 1 + (n - 1) = xs.length + n := by omega
      rw [hm]
      rw [Nat.add_div_right xs.length (by omega)]
      rcases le_or_lt (n - 1) xs.length with hle | hlt
      · have : xs.length - (n - 1) + (n - 1) = xs.length := by omega
        rw [this]
      · have h0 : xs.length - (n - 1) = 0 := by omega
        rw [h0, Nat.zero_add]
        rw [Nat.div_eq_of_lt (by omega), Nat.div_eq_of_lt (by omega)]

theorem rustChunks_length (n : Nat) (hn : 1 ≤ n) (l : List α) :
    (rustChunks n l).length = (l.length + (n - 1)) / n :=
  rustChunksFuel_length n hn l.length l (Nat.le_refl _)

theorem uploadChunks_length (N B : List Nat) :
    (uploadChunks N B).length =
      (B.length + (utf8Bytes N).length + 1 + 99999999) / 100000000 := by
  unfold uploadChunks
  rw [rustChunks_length 100000000 (by omega), uploadPayload_length]
  congr 1
  omega

theorem uploadChunks_length_pos (N B : List Nat) : 1 ≤ (uploadChunks N B).length := by
  rw [uploadChunks_length]
  rw [Nat.one_le_div_iff (by omega)]
  omega

theorem uploadChunks_flatten (N B : List Nat) :
    (uploadChunks N B).flatten = uploadPayload N B :=
  rustChunks_flatten _ _

theorem downloadLoop_ok (env : DownloadEnv) (idxs : List Nat) (f : Nat → List Nat)
    (h : ∀ i ∈ idxs, env.fetch i = .ok (f i)) (acc : List Nat) :
    downloadLoop env idxs acc = .ok (acc ++ idxs.flatMap f) := by
  induction idxs generalizing acc with
  | nil => simp [downloadLoop]
  | cons i rest ih =>
    have hi := h i (List.mem_cons_self i rest)
    simp only [downloadLoop, hi, List.flatMap_cons]
    rw [ih (fun j hj => h j (List.mem_cons_of_mem i hj))]
    simp

theorem joinLoop_ok_no_zero (env : UploadEnv) (idxs : List Nat) (hz : 0 ∉ idxs)
    (hist h : List Url) (hok : joinLoop env idxs hist = .ok h) : h = hist := by
  induction idxs generalizing hist with
  | nil =>
    simp only [joinLoop] at hok
    cases hok
    rfl
  | cons i rest ih =>
    have hi : i ≠ 0 := fun e => hz (e ▸ List.mem_cons_self i rest)
    have hrest : 0 ∉ rest := fun e => hz (List.mem_cons_of_mem i e)
    simp only [joinLoop] at hok
    cases hsend : env.chunkSend i with
    | error e => simp [hsend] at hok
    | ok u =>
      simp only [hsend, hi, if_false] at hok
      exact ih hrest hist hok

theorem joinLoop_all_ok_no_zero (env : UploadEnv) (idxs : List Nat)
    (hok : ∀ i ∈ idxs, env.chunkSend i = .ok ()) (hz : 0 ∉ idxs) (hist : List Url) :
    joinLoop env idxs hist = .ok hist := by
  induction idxs with
  | nil => simp [joinLoop]
  | cons i rest ih =>
    have hi : i ≠ 0 := fun e => hz (e ▸ List.mem_cons_self i rest)
    have hrest : 0 ∉ rest := fun e => hz (List.mem_cons_of_mem i e)
    simp only [joinLoop, hok i (List.mem_cons_self i rest), hi, if_false]
    exact ih (fun j hj => hok j (List.mem_cons_of_mem i hj)) hrest

theorem zero_not_mem_map_succ (l : List Nat) : 0 ∉ l.map Nat.succ := by
  intro h
  rcases List.mem_map.mp h with ⟨a, _, ha⟩
  exact Nat.succ_ne_zero a ha

theorem joinLoop_range_single (env : UploadEnv) (n : Nat) (hn : 1 ≤ n) (h : List Url)
    (hok : joinLoop env (List.range n) [] = .ok h) : h.length = 1 := by
  obtain ⟨m, rfl⟩ : ∃ m, n = m + 1 := ⟨n - 1, by omega⟩
  rw [List.range_succ_eq_map] at hok
  simp only [joinLoop] at hok
  cases hsend : env.chunkSend 0 with
  | error e => simp [hsend] at hok
  | ok u =>
    cases hjson : env.chunkZeroJson with
    | error e => simp [hsend, hjson] at hok
    | ok json =>
      cases hp : parse_url json.browser_download_url with
      | error e => simp [hsend, hjson, hp] at hok
      | ok u0 =>
        simp only [hsend, hjson, hp, if_pos rfl, List.nil_append] at hok
        have := joinLoop_ok_no_zero env _ (zero_not_mem_map_succ _) _ _ hok
        rw [this]
        rfl

theorem joinLoop_range_success (env : UploadEnv) (n : Nat) (hn : 1 ≤ n)
    (hsend : ∀ i, env.chunkSend i = .ok ()) (j : AssetsResponse) (u : Url)
    (hjson : env.chunkZeroJson = .ok j) (hp : parse_url j.browser_download_url = .ok u) :
    joinLoop env (List.range n) [] = .ok [u] := by
  obtain ⟨m, rfl⟩ : ∃ m, n = m + 1 := ⟨n - 1, by omega⟩
  rw [List.range_succ_eq_map]
  simp only [joinLoop, hsend 0, if_pos rfl, hjson, hp]
  exact joinLoop_all_ok_no_zero env _ (fun i _ => hsend i) (zero_not_mem_map_succ _) [u]

theorem toError_ne_invalid (e : NetError) : e.toError ≠ .invalidRepoFormat := by
  cases e <;> simp [NetError.toError]

theorem parse_url_err_shape (s : String) (e : Error) (h : parse_url s = .error e) :
    e = .urlParse 0 := by
  unfold parse_url at h
  cases hp : Url.parseStr s with
  | none => rw [hp] at h; injection h with h; exact h.symm
  | some u =>
    rw [hp] at h
    simp only at h
    split at h <;> cases h

theorem joinLoop_err_shape (env : UploadEnv) (idxs : List Nat) (hist : List Url) (e : Error)
    (h : joinLoop env idxs hist = .error e) : e ≠ .invalidRepoFormat := by
  induction idxs generalizing hist with
  | nil => simp [joinLoop] at h
  | cons i rest ih =>
    simp only [joinLoop] at h
    cases hsend : env.chunkSend i with
    | error ne =>
      simp only [hsend] at h
      injection h with h
      rw [← h]
      exact toError_ne_invalid ne
    | ok u =>
      by_cases hi : i = 0
      · subst hi
        cases hjson : env.chunkZeroJson with
        | error ne =>
          simp [hsend, hjson] at h
          subst h
          exact toError_ne_invalid ne
        | ok json =>
          cases hp : parse_url json.browser_download_url with
          | error pe =>
            simp [hsend, hjson, hp] at h
            subst h
            rw [parse_url_err_shape _ _ hp]
            intro hc
            cases hc
          | ok u0 =>
            simp [hsend, hjson, hp] at h
            exact ih _ h
      · simp only [hsend, if_neg hi] at h
        exact ih _ h

theorem resolver_trace_no_upload (repo tag : String) (env : ResolverEnv) (res : Except RunErr (Url × Url))
    (tr : List Request) (h : create_or_get_release repo tag env = (res, tr)) :
    ∀ r ∈ tr, r.isChunkUpload = false := by
  unfold create_or_get_release at h
  split at h <;>
    [skip; skip;
     (split at h <;>
       [skip; skip;
        (split at h <;> [skip; (split at h <;> skip)])])] <;>
    (injection h with h1 h2; subst h2; intro r hr; fin_cases hr <;> rfl)

theorem resolver_err_shape (repo tag : String) (env : ResolverEnv) (e : RunErr)
    (tr : List Request) (h : create_or_get_release repo tag env = (.error e, tr)) :
    e = .panicked ∨ ∃ ne : NetError, e = .err ne.toError := by
  unfold create_or_get_release at h
  split at h
  · cases h
  · injection h with h1 h2; injection h1 with h1; exact Or.inl h1.symm
  · split at h
    · cases h
    · injection h with h1 h2; injection h1 with h1; exact Or.inl h1.symm
    · split at h
      · injection h with h1 h2; injection h1 with h1
        exact Or.inr ⟨_, h1.symm⟩
      · split at h
        · cases h
        · injection h with h1 h2; injection h1 with h1; exact Or.inl h1.symm
        · injection h with h1 h2; injection h1 with h1; exact Or.inl h1.symm
        · injection h with h1 h2; injection h1 with h1
          exact Or.inr ⟨_, h1.symm⟩

theorem uploadSpawnJoin_ok (env : UploadEnv) (n : Nat) (tr tr' : List Request) (fid : FileId)
    (h : uploadSpawnJoin env n tr = (.ok fid, tr')) : fid.chunks = n ∧ tr' = tr := by
  unfold uploadSpawnJoin at h
  split at h
  · cases h
  · injection h with h1 h2
    injection h1 with h1
    exact ⟨h1 ▸ rfl, h2.symm⟩
  · cases h

theorem uploadWithRelease_ok_chunks (digest : List Nat → String) (N B : List Nat)
    (env : UploadEnv) (up as : Url) (tr0 tr : List Request) (fid : FileId)
    (h : uploadWithRelease digest N B env up as tr0 = (.ok fid, tr)) :
    fid.chunks = (uploadChunks N B).length := by
  unfold uploadWithRelease at h
  simp only at h
  split at h
  · cases h
  · split at h
    · split at h
      · cases h
      · injection h with h1 h2
        injection h1 with h1
        rw [← h1]
    · exact (uploadSpawnJoin_ok _ _ _ _ _ h).1

theorem upload_file_ok_chunks (digest : List Nat → String) (N B : List Nat) (repo : String)
    (env : UploadEnv) (fid : FileId)
    (h : (FileId.upload_file digest N B repo env).1 = .ok fid) :
    fid.chunks = (uploadChunks N B).length := by
  unfold FileId.upload_file at h
  split at h
  · cases h
  · rcases hcr : create_or_get_release repo "files" env.resolver with ⟨res, tr⟩
    rw [hcr] at h
    cases res with
    | error e => simp at h
    | ok urls =>
      simp only at h
      rcases hur : uploadWithRelease digest N B env urls.1 urls.2 tr with ⟨res2, tr2⟩
      rw [hur] at h
      cases res2 with
      | error e => cases h
      | ok fid2 =>
        cases h
        exact uploadWithRelease_ok_chunks _ _ _ _ _ _ _ _ _ hur

theorem uploadSpawnJoin_not_uninit (env : UploadEnv) (n : Nat) (hn : 1 ≤ n) (tr : List Request) :
    (uploadSpawnJoin env n tr).1 ≠ .error .uninit := by
  unfold uploadSpawnJoin
  cases hj : joinLoop env (List.range n) [] with
  | error e =>
    intro hc
    injection hc with hc
    cases hc
  | ok h =>
    have hlen := joinLoop_range_single env n hn h hj
    cases h with
    | nil => simp at hlen
    | cons u t =>
      cases t with
      | nil => intro hc; cases hc
      | cons v t2 => simp at hlen

theorem uploadWithRelease_not_uninit (digest : List Nat → String) (N B : List Nat)
    (env : UploadEnv) (up as : Url) (tr0 : List Request) :
    (uploadWithRelease digest N B env up as tr0).1 ≠ .error .uninit := by
  unfold uploadWithRelease
  simp only
  split
  · intro hc
    injection hc with hc
    cases hc
  · split
    · split
      · intro hc; injection hc with hc; cases hc
      · intro hc; cases hc
    · exact uploadSpawnJoin_not_uninit env _ (uploadChunks_length_pos N B) _

theorem uploadWithRelease_not_invalid (digest : List Nat → String) (N B : List Nat)
    (env : UploadEnv) (up as : Url) (tr0 : List Request) :
    (uploadWithRelease digest N B env up as tr0).1 ≠ .error (.err .invalidRepoFormat) := by
  unfold uploadWithRelease
  simp only
  split
  · rename_i e heq
    intro hc
    injection hc with hc
    injection hc with hc
    exact toError_ne_invalid e hc
  · split
    · split
      · rename_i e heq
        intro hc
        injection hc with hc
        injection hc with hc
        exact absurd (hc ▸ parse_url_err_shape _ _ heq) (by intro h2; cases h2)
      · intro hc; cases hc
    · unfold uploadSpawnJoin
      split
      · rename_i e heq
        intro hc
        injection hc with hc
        injection hc with hc
        exact joinLoop_err_shape _ _ _ _ heq hc
      · intro hc; cases hc
      · intro hc; injection hc with hc; cases hc

theorem upload_file_not_invalid (digest : List Nat → String) (N B : List Nat) (repo : String)
    (env : UploadEnv) (h : valid_repo repo = true) :
    (FileId.upload_file digest N B repo env).1 ≠ .error (.err .invalidRepoFormat) := by
  unfold FileId.upload_file
  rw [h]
  simp only [Bool.true_eq_false, if_false]
  rcases hcr : create_or_get_release repo "files" env.resolver with ⟨res, tr⟩
  cases res with
  | error e =>
    intro hc
    rcases resolver_err_shape repo "files" env.resolver e tr hcr with h1 | ⟨ne, h1⟩
    · subst h1
      simp at hc
    · subst h1
      simp at hc
      exact toError_ne_invalid ne hc
  | ok urls => exact uploadWithRelease_not_invalid digest N B env _ _ tr

theorem map_utf8_len_ascii (N : List Nat) (h : ∀ c ∈ N, c < 128) :
    (N.map (fun b => (utf8EncodeChar b).length)).sum = N.length := by
  induction N with
  | nil => simp
  | cons c N ih =>
    simp only [List.map_cons, List.sum_cons, List.length_cons]
    rw [utf8EncodeChar_ascii c (h c (List.mem_cons_self c N)),
      ih (fun d hd => h d (List.mem_cons_of_mem c hd))]
    simp [Nat.add_comm]

theorem map_utf8_len_ge (l : List Nat) :
    l.length ≤ (l.map (fun b => (utf8EncodeChar b).length)).sum := by
  induction l with
  | nil => simp
  | cons c l ih =>
    simp only [List.map_cons, List.sum_cons, List.length_cons]
    have := utf8EncodeChar_length_pos c
    omega

theorem splitNamePayload_ascii (N B : List Nat) (h : ∀ c ∈ N, c < 128 ∧ c ≠ 10) :
    splitNamePayload (N ++ 10 :: B) = (B, N) := by
  unfold splitNamePayload
  rw [takeWhile_name_part N B (fun c hc => (h c hc).2)]
  simp only
  rw [map_utf8_len_ascii N (fun c hc => (h c hc).1), drop_name_part]

theorem soft_shape (r : RelRes) (h : r.isSoftFail = true) :
    r = .incomplete ∨ ∃ e, r = .failed e := by
  cases r with
  | urls u => simp [RelRes.isSoftFail] at h
  | parseFail => simp [RelRes.isSoftFail] at h
  | incomplete => exact Or.inl rfl
  | failed e => exact Or.inr ⟨e, rfl⟩

theorem uploadSpawnJoin_trace (env : UploadEnv) (n : Nat) (tr : List Request) :
    (uploadSpawnJoin env n tr).2 = tr := by
  unfold uploadSpawnJoin
  split <;> rfl

theorem upload_file_resolved (digest : List Nat → String) (N B : List Nat) (repo : String)
    (env : UploadEnv) (urls : Url × Url) (tr0 : List Request)
    (hrepo : valid_repo repo = true)
    (hres : create_or_get_release repo "files" env.resolver = (.ok urls, tr0)) :
    FileId.upload_file digest N B repo env = uploadWithRelease digest N B env urls.1 urls.2 tr0 := by
  unfold FileId.upload_file
  rw [hrepo, hres]
  simp

/-! Concrete fixtures used by counterexamples and witnesses. -/

/-- Resolver environment whose first lookup succeeds with parseable URLs. -/
def cResolverEnv : ResolverEnv :=
  ⟨.ok ⟨some "https://h/u", some "https://h/a"⟩, .error (.reqwest 0), .ok "", .error (.reqwest 0)⟩

/-- Resolver environment in which lookup and creation both fail, the
bootstrap commit succeeds, and the final lookup fails with a decode error. -/
def cBootEnv : ResolverEnv :=
  ⟨.error (.reqwest 1), .error (.reqwest 2), .ok "x", .error (.serde 3)⟩

/-- Opaque stand-in for the SHA-256 digest. -/
def cDigest : List Nat → String := fun _ => "h"

/-- Upload environment over an empty asset listing (a fresh release). -/
def cFreshEnv : UploadEnv :=
  ⟨cResolverEnv, .ok [], fun _ => .ok (), .ok ⟨"n", "https://h/d"⟩⟩

/-- Upload environment whose asset listing already holds the `h-chunk0`
asset, triggering the dedup short-circuit for digest `cDigest`. -/
def cDedupEnv : UploadEnv :=
  ⟨cResolverEnv, .ok [⟨"h-chunk0", "https://h/d"⟩], fun _ => .ok (), .ok ⟨"n", "https://h/d"⟩⟩

/-- Download environment that faithfully serves the chunks of `payload`. -/
def cDenvOf (payload : List Nat) : DownloadEnv :=
  ⟨fun i => .ok ((rustChunks 100000000 payload).getD i [])⟩

/-- Download environment serving a single newline-free chunk. -/
def cNoNlDenv : DownloadEnv :=
  ⟨fun _ => .ok [104, 105]⟩

/-- Download environment serving two chunks with distinct bodies. -/
def cTwoChunkDenv : DownloadEnv :=
  ⟨fun i => .ok (if i = 0 then [5] else [6, 7])⟩

/-- Release-asset URL with a trailing URI-template placeholder, as the
remote API returns it. -/
def cBraceInput : String :=
  "https://api.github.com/repos/o/r/releases/1/assets\x7b?name,label\x7d"

/-! Claim theorems. -/

/-- C1, counterexample: the round-trip law fails as stated for arbitrary
names. A name containing a newline code point (here `a\nb`) is truncated at
its first newline on download, and a non-ASCII name (here the single code
point 233, `é`) is reconstructed byte-by-byte as two different code points
while the skip count overshoots, corrupting the content. -/
theorem roundtrip_counterexample :
    ((match (FileId.upload_file cDigest [97, 10, 98] [99] "o/r" cFreshEnv).1 with
      | .ok fid => (fid.get_file (cDenvOf (uploadPayload [97, 10, 98] [99]))).1
      | .error e => .error e) ≠ .ok ([99], [97, 10, 98]))
    ∧ ((match (FileId.upload_file cDigest [233] [65, 66] "o/r" cFreshEnv).1 with
      | .ok fid => (fid.get_file (cDenvOf (uploadPayload [233] [65, 66]))).1
      | .error e => .error e) ≠ .ok ([65, 66], [233])) := by
  decide

/-- C1 (amended): for every file name all of whose code points are ASCII
and none of which is a newline, downloading the locator returned by a
successful `upload_file` on a fresh release (no matching-hash asset in the
listing), with the remote store faithfully serving the uploaded chunk
bytes, returns exactly the original bytes and the original name; and the
upload's request trace ends with exactly the chunk uploads of the
name-prefixed payload's chunks. -/
theorem roundtrip_upload_download
    (digest : List Nat → String) (N B : List Nat) (repo : String)
    (env : UploadEnv) (denv : DownloadEnv)
    (urls : Url × Url) (tr0 : List Request) (assets : List AssetsResponse) (fid : FileId)
    (hname : ∀ c ∈ N, c < 128 ∧ c ≠ 10)
    (hrepo : valid_repo repo = true)
    (hres : create_or_get_release repo "files" env.resolver = (.ok urls, tr0))
    (hlist : env.listAssets = .ok assets)
    (hfresh : assets.find? (fun a => a.name == digest (uploadPayload N B) ++ "-chunk0") = none)
    (hup : (FileId.upload_file digest N B repo env).1 = .ok fid)
    (hfetch : ∀ i, denv.fetch i = .ok ((uploadChunks N B).getD i [])) :
    (fid.get_file denv).1 = .ok (B, N)
    ∧ (FileId.upload_file digest N B repo env).2 =
        tr0 ++ [Request.listAssets urls.2] ++
          chunkUploadRequests urls.1 (digest (uploadPayload N B)) (uploadChunks N B) := by
  constructor
  · have hch : fid.chunks = (uploadChunks N B).length :=
      upload_file_ok_chunks digest N B repo env fid hup
    unfold FileId.get_file
    simp only [downloadLoop_ok denv (List.range fid.chunks)
      (fun i => (uploadChunks N B).getD i []) (fun i _ => hfetch i) [], List.nil_append]
    rw [hch, range_flatMap_getD, uploadChunks_flatten, uploadPayload_eq,
      utf8Bytes_ascii N (fun c hc => (hname c hc).1),
      splitNamePayload_ascii N B hname]
  · rw [upload_file_resolved digest N B repo env urls tr0 hrepo hres]
    unfold uploadWithRelease
    simp only [hlist, hfresh]
    rw [uploadSpawnJoin_trace]

/-- C1 witness: a concrete ASCII round trip, name `hi`, content byte 33. -/
theorem roundtrip_upload_download_witness :
    ((FileId.mk (Url.mk "https://h" "/d" (some "")) 1).get_file
        (cDenvOf (uploadPayload [104, 105] [33]))).1 = .ok ([33], [104, 105]) :=
  (roundtrip_upload_download cDigest [104, 105] [33] "o/r" cFreshEnv
    (cDenvOf (uploadPayload [104, 105] [33]))
    (⟨"https://h", "/a", some ""⟩, ⟨"https://h", "/u", some ""⟩)
    [.getRelease "o/r" "files"] []
    ⟨⟨"https://h", "/d", some ""⟩, 1⟩
    (by decide) (by decide) (by decide) (by decide) (by decide) (by decide)
    (fun _ => rfl)).1

/-- C2: when the asset listing already holds an asset named
`hash-chunk0` for the digest of the name-prefixed payload, `upload_file`
short-circuits: the result is the locator built from that asset's
normalized download URL and the computed chunk count, the request trace is
the resolver's requests plus the one listing request (no chunk upload
request at all), and every successful call on the same name and bytes
returns the same chunk count. -/
theorem dedup_short_circuit
    (digest : List Nat → String) (N B : List Nat) (repo : String) (env : UploadEnv)
    (urls : Url × Url) (tr0 : List Request) (assets : List AssetsResponse)
    (asset : AssetsResponse) (u : Url)
    (hrepo : valid_repo repo = true)
    (hres : create_or_get_release repo "files" env.resolver = (.ok urls, tr0))
    (hlist : env.listAssets = .ok assets)
    (hfind : assets.find? (fun a => a.name == digest (uploadPayload N B) ++ "-chunk0") = some asset)
    (hparse : parse_url asset.browser_download_url = .ok u) :
    FileId.upload_file digest N B repo env =
      (.ok ⟨u, (uploadChunks N B).length⟩, tr0 ++ [Request.listAssets urls.2])
    ∧ (∀ r ∈ (FileId.upload_file digest N B repo env).2, r.isChunkUpload = false)
    ∧ (∀ (env1 : UploadEnv) (fid1 : FileId),
        (FileId.upload_file digest N B repo env1).1 = .ok fid1 →
        fid1.chunks = (uploadChunks N B).length) := by
  have key : FileId.upload_file digest N B repo env =
      (.ok ⟨u, (uploadChunks N B).length⟩, tr0 ++ [Request.listAssets urls.2]) := by
    rw [upload_file_resolved digest N B repo env urls tr0 hrepo hres]
    unfold uploadWithRelease
    simp only [hlist, hfind, hparse]
  refine ⟨key, ?_, ?_⟩
  · rw [key]
    intro r hr
    rcases List.mem_append.mp hr with h | h
    · exact resolver_trace_no_upload repo "files" env.resolver _ _ hres r h
    · rcases List.mem_singleton.mp h with rfl
      rfl
  · intro env1 fid1 h1
    exact upload_file_ok_chunks digest N B repo env1 fid1 h1

/-- C2 witness: a concrete dedup hit for digest stand-in `h`. -/
theorem dedup_short_circuit_witness :
    FileId.upload_file cDigest [104] [105] "o/r" cDedupEnv =
      (.ok ⟨⟨"https://h", "/d", some ""⟩, 1⟩,
       [Request.getRelease "o/r" "files", Request.listAssets ⟨"https://h", "/u", some ""⟩]) :=
  (dedup_short_circuit cDigest [104] [105] "o/r" cDedupEnv
    (⟨"https://h", "/a", some ""⟩, ⟨"https://h", "/u", some ""⟩)
    [.getRelease "o/r" "files"] [⟨"h-chunk0", "https://h/d"⟩]
    ⟨"h-chunk0", "https://h/d"⟩ ⟨"https://h", "/d", some ""⟩
    (by decide) (by decide) (by decide) (by decide) (by decide)).1

/-- C3: when the release lookup and the release creation both soft-fail
(an error or incomplete data), the resolver issues exactly one bootstrap
content commit against the sentinel path and then exactly one final
lookup; when the bootstrap commit succeeds and the final lookup fails, the
resolver's result is exactly that lookup's error (not a success, not a
panic). -/
theorem bootstrap_resolution (repo tag : String) (env : ResolverEnv) (e : NetError) (s : String)
    (h1 : (getReleaseStep env.getRelease1).isSoftFail = true)
    (h2 : (getReleaseStep env.createRelease).isSoftFail = true)
    (h3 : env.putContents = .ok s)
    (h4 : getReleaseStep env.getRelease2 = .failed e) :
    create_or_get_release repo tag env =
      (.error (.err e.toError),
       [.getRelease repo tag, .createRelease repo tag,
        .putContents repo "__no_empty_repo__", .getRelease repo tag]) := by
  rcases soft_shape _ h1 with hg1 | ⟨e1, hg1⟩ <;>
    rcases soft_shape _ h2 with hg2 | ⟨e2, hg2⟩ <;>
    simp [create_or_get_release, hg1, hg2, h3, h4]

/-- C3 witness: a concrete environment in which both phases fail, the
bootstrap commit succeeds, and the final lookup fails with a decode error
that becomes the resolver's result. -/
theorem bootstrap_resolution_witness :
    create_or_get_release "o/r" "files" cBootEnv =
      (.error (.err (Error.serde 3)),
       [.getRelease "o/r" "files", .createRelease "o/r" "files",
        .putContents "o/r" "__no_empty_repo__", .getRelease "o/r" "files"]) :=
  bootstrap_resolution "o/r" "files" cBootEnv (.serde 3) "x"
    (by decide) (by decide) rfl (by decide)

/-- C4: the chunk count stored in any locator returned by a successful
`upload_file` equals the ceiling of (payload length + name byte length + 1)
divided by the 100,000,000-byte chunk size, and is at least 1 (also for an
empty name and empty payload). -/
theorem chunk_count_formula (digest : List Nat → String) (N B : List Nat) (repo : String)
    (env : UploadEnv) (fid : FileId)
    (h : (FileId.upload_file digest N B repo env).1 = .ok fid) :
    fid.chunks = (B.length + (utf8Bytes N).length + 1 + 99999999) / 100000000
    ∧ 1 ≤ fid.chunks := by
  have hc := upload_file_ok_chunks digest N B repo env fid h
  constructor
  · rw [hc, uploadChunks_length]
  · rw [hc]
    exact uploadChunks_length_pos N B

/-- C4 witness: the empty name and empty payload yield exactly one chunk. -/
theorem chunk_count_formula_witness :
    (FileId.mk (Url.mk "https://h" "/d" (some "")) 1).chunks = 1
    ∧ 1 ≤ (FileId.mk (Url.mk "https://h" "/d" (some "")) 1).chunks :=
  chunk_count_formula cDigest [] [] "o/r" cDedupEnv
    ⟨⟨"https://h", "/d", some ""⟩, 1⟩ (by decide)

/-- C5: for every locator and every assignment of response bodies to the
chunk indices below its chunk count, the download loop concatenates the
bodies in ascending index order `0, 1, …`, and `get_file` returns the
name split of exactly that ordered concatenation. -/
theorem download_reassembly_order (fid : FileId) (env : DownloadEnv) (bodies : Nat → List Nat)
    (h : ∀ i, i < fid.chunks → env.fetch i = .ok (bodies i)) :
    downloadLoop env (List.range fid.chunks) [] = .ok ((List.range fid.chunks).flatMap bodies)
    ∧ (fid.get_file env).1 = .ok (splitNamePayload ((List.range fid.chunks).flatMap bodies)) := by
  have hdl := downloadLoop_ok env (List.range fid.chunks) bodies
    (fun i hi => h i (List.mem_range.mp hi)) []
  rw [List.nil_append] at hdl
  refine ⟨hdl, ?_⟩
  unfold FileId.get_file
  simp only [hdl]

/-- C5 witness: two chunks with different bodies are reassembled in index
order. -/
theorem download_reassembly_order_witness :
    downloadLoop cTwoChunkDenv (List.range 2) [] = .ok [5, 6, 7]
    ∧ ((FileId.mk (Url.mk "https://h" "/d" (some "")) 2).get_file cTwoChunkDenv).1 =
        .ok (splitNamePayload [5, 6, 7]) :=
  download_reassembly_order ⟨⟨"https://h", "/d", some ""⟩, 2⟩ cTwoChunkDenv
    (fun i => if i = 0 then [5] else [6, 7]) (fun _ _ => rfl)

/-- C6, counterexample: on a reassembled payload with no newline byte
(here `hi`, bytes 104 105), `get_file` does not return the claimed pair
(whole payload as content, empty name); it returns the opposite one. -/
theorem no_newline_counterexample :
    ((FileId.mk (Url.mk "https://h" "/d" (some "")) 1).get_file cNoNlDenv).1 ≠
        .ok ([104, 105], [])
    ∧ ((FileId.mk (Url.mk "https://h" "/d" (some "")) 1).get_file cNoNlDenv).1 =
        .ok ([], [104, 105]) := by
  decide

/-- C6 (amended): for every reassembled download payload containing no
newline byte, `get_file` returns (rather than failing) with the entire
payload as the file name and empty file content. -/
theorem no_newline_degenerate (fid : FileId) (env : DownloadEnv) (payload : List Nat)
    (hok : downloadLoop env (List.range fid.chunks) [] = .ok payload)
    (hnn : ∀ b ∈ payload, b ≠ 10) :
    (fid.get_file env).1 = .ok ([], payload) := by
  unfold FileId.get_file
  simp only [hok]
  unfold splitNamePayload
  rw [List.takeWhile_eq_self_iff.mpr (by intro b hb; simpa using hnn b hb)]
  simp only
  rw [List.drop_eq_nil_of_le (by have := map_utf8_len_ge payload; omega)]

/-- C6 witness: a concrete newline-free payload comes back entirely as the
name. -/
theorem no_newline_degenerate_witness :
    ((FileId.mk (Url.mk "https://h" "/u" (some "")) 1).get_file cNoNlDenv).1 =
        .ok ([], [104, 105]) :=
  no_newline_degenerate ⟨⟨"https://h", "/u", some ""⟩, 1⟩ cNoNlDenv [104, 105]
    (by decide) (by decide)

/-- C7: `upload_file` fails with `InvalidRepoFormat` on `notaslash` with an
empty request trace; it never returns `InvalidRepoFormat` for `owner/name`
or `https://github.com/owner/name`; and whenever it returns
`InvalidRepoFormat` the request trace is empty (no network request was
issued). -/
theorem invalid_repo_format_checks :
    (∀ (digest : List Nat → String) (N B : List Nat) (env : UploadEnv),
        FileId.upload_file digest N B "notaslash" env = (.error (.err .invalidRepoFormat), []))
    ∧ (∀ (digest : List Nat → String) (N B : List Nat) (env : UploadEnv),
        (FileId.upload_file digest N B "owner/name" env).1 ≠ .error (.err .invalidRepoFormat))
    ∧ (∀ (digest : List Nat → String) (N B : List Nat) (env : UploadEnv),
        (FileId.upload_file digest N B "https://github.com/owner/name" env).1 ≠
          .error (.err .invalidRepoFormat))
    ∧ (∀ (digest : List Nat → String) (N B : List Nat) (repo : String) (env : UploadEnv),
        (FileId.upload_file digest N B repo env).1 = .error (.err .invalidRepoFormat) →
        (FileId.upload_file digest N B repo env).2 = []) := by
  refine ⟨?_, ?_, ?_, ?_⟩
  · intro digest N B env
    unfold FileId.upload_file
    rw [show valid_repo "notaslash" = false by decide]
    simp
  · intro digest N B env
    exact upload_file_not_invalid digest N B _ env (by decide)
  · intro digest N B env
    exact upload_file_not_invalid digest N B _ env (by decide)
  · intro digest N B repo env h
    cases hv : valid_repo repo with
    | true => exact absurd h (upload_file_not_invalid digest N B repo env hv)
    | false =>
      unfold FileId.upload_file
      rw [hv]
      simp

/-- C7 witness: the failure on `notaslash` leaves an empty request trace. -/
theorem invalid_repo_format_checks_witness :
    (FileId.upload_file cDigest [] [] "notaslash" cFreshEnv).2 = [] :=
  invalid_repo_format_checks.2.2.2 cDigest [] [] "notaslash" cFreshEnv (by decide)

/-- C8, counterexample: on the `assets\x7b?name,label\x7d` input the
normalizer yields the stripped path, but the query is set to the empty
string rather than removed, so the textual form is `…/assets?` and not the
claimed `…/assets` with no query part. -/
theorem url_normalization_counterexample :
    parse_url cBraceInput =
      .ok ⟨"https://api.github.com", "/repos/o/r/releases/1/assets", some ""⟩
    ∧ Url.toString ⟨"https://api.github.com", "/repos/o/r/releases/1/assets", some ""⟩ ≠
        "https://api.github.com/repos/o/r/releases/1/assets"
    ∧ (Url.mk "https://api.github.com" "/repos/o/r/releases/1/assets" (some "")).query ≠
        none := by
  decide

/-- C8 (amended): every successfully normalized URL has its query set to
the empty string — so its textual form is the base and path followed by a
bare `?`, not a form without a query part — and on the
`assets\x7b?name,label\x7d` input the trailing percent-encoded brace is
stripped from the path. -/
theorem url_normalization (s : String) (u : Url) (h : parse_url s = .ok u) :
    u.query = some "" ∧ u.toString = u.base ++ u.path ++ "?"
    ∧ parse_url cBraceInput =
        .ok ⟨"https://api.github.com", "/repos/o/r/releases/1/assets", some ""⟩ := by
  unfold parse_url at h
  cases hp : Url.parseStr s with
  | none => rw [hp] at h; cases h
  | some u0 =>
    rw [hp] at h
    simp only at h
    have hq : u.query = some "" := by
      split at h
      · injection h with h
        rw [← h]
      · injection h with h
        rw [← h]
    refine ⟨hq, ?_, by decide⟩
    unfold Url.toString
    rw [hq]
    rfl

/-- C8 witness: the amended normalization facts at the brace input. -/
theorem url_normalization_witness :
    (Url.mk "https://api.github.com" "/repos/o/r/releases/1/assets" (some "")).query = some ""
    ∧ (Url.mk "https://api.github.com" "/repos/o/r/releases/1/assets" (some "")).toString =
        "https://api.github.com" ++ "/repos/o/r/releases/1/assets" ++ "?"
    ∧ parse_url cBraceInput =
        .ok ⟨"https://api.github.com", "/repos/o/r/releases/1/assets", some ""⟩ :=
  url_normalization cBraceInput
    ⟨"https://api.github.com", "/repos/o/r/releases/1/assets", some ""⟩ (by decide)

/-- C9: the read of the chunk-0 result slot is safe: on no input and no
environment does `upload_file` reach the distinguished outcome of reading
a slot that was not written exactly once — the name-prefixed payload is
never empty, so there is always a chunk 0 whose join iteration either
writes the slot once or exits with an error first. -/
theorem result_slot_written_once (digest : List Nat → String) (N B : List Nat) (repo : String)
    (env : UploadEnv) : (FileId.upload_file digest N B repo env).1 ≠ .error .uninit := by
  unfold FileId.upload_file
  split
  · intro hc
    injection hc with hc
    cases hc
  · rcases hcr : create_or_get_release repo "files" env.resolver with ⟨res, tr⟩
    cases res with
    | error e =>
      intro hc
      rcases resolver_err_shape repo "files" env.resolver e tr hcr with h1 | ⟨ne, h1⟩
      · subst h1
        simp at hc
      · subst h1
        simp at hc
    | ok urls => exact uploadWithRelease_not_uninit digest N B env _ _ tr

/-- C9 witness: the slot-read outcome does not occur on a concrete run. -/
theorem result_slot_written_once_witness :
    (FileId.upload_file cDigest [] [] "o/r" cFreshEnv).1 ≠ .error .uninit :=
  result_slot_written_once cDigest [] [] "o/r" cFreshEnv

/-- C10: `prepend_slice` is prepend: whenever the spare capacity covers the
slice (which `reserve` guarantees), the resulting vector is the slice
followed by the old contents, with length the sum of both; consequently
the payload after step 4 of `upload_file` is exactly the name's UTF-8
bytes, a newline, then the file bytes. -/
theorem prepend_slice_correct :
    (∀ (α : Type) (vec slice spare : List α), slice.length ≤ spare.length →
        prepend_slice vec slice spare = slice ++ vec
        ∧ (prepend_slice vec slice spare).length = slice.length + vec.length)
    ∧ (∀ N B : List Nat, uploadPayload N B = utf8Bytes N ++ 10 :: B) := by
  constructor
  · intro α vec slice spare h
    have hs := prepend_slice_spec vec slice spare h
    refine ⟨hs, ?_⟩
    rw [hs]
    simp
  · exact uploadPayload_eq

/-- C10 witness: a concrete prepend and the concrete payload shape. -/
theorem prepend_slice_correct_witness :
    prepend_slice [1, 2] [9] [0] = [9, 1, 2]
    ∧ (prepend_slice [1, 2] [9] [0]).length = 1 + 2 := by
  have h := prepend_slice_correct.1 Nat [1, 2] [9] [0] (by decide)
  exact h

end FreeStorage
